import Mathlib

/-!
Verification of the GitHub PR-review webhook backend.

The development shallowly embeds the JavaScript source of the service:
the retry-with-backoff helper `retryableRequest`, the webhook signature
check (HMAC-SHA256 over `JSON.stringify(req.body)`), the action filter,
the diff pre-processing `processDiff`, the `Title:` extraction, the
short-review advisory note, and the per-repository registration lookup
of the MongoDB revision.  External collaborators (axios, the generation
backend, MongoDB) are modelled as explicit oracles: a handler takes the
outcomes of its remote calls as input and returns its HTTP response
together with the ordered trace of external calls it performed, so
"performs no further processing" is the statement that the trace is
empty.  JSON parsing/serialisation (body-parser / `JSON.stringify`) and
HMAC-SHA256 (node `crypto`) are implemented concretely below.
-/

/-! ## Retry controller

Embedding of `retryableRequest` (src/unnamed/part_000 lines 17-32,
src/app.js lines 137-152, src/unnamed/part_002 lines 17-32):

```js
const MAX_RETRIES = 3;
const INITIAL_RETRY_DELAY = 5000;
async function retryableRequest(config, retries = MAX_RETRIES, delay = INITIAL_RETRY_DELAY) {
  try { return await axios(config); }
  catch (error) {
    if (retries > 0 && error.response && error.response.status === 503) {
      await new Promise(resolve => setTimeout(resolve, delay));
      return retryableRequest(config, retries - 1, delay * 2);
    }
    throw error;
  }
}
```

The wrapped operation is modelled as a function from the invocation
index to an outcome.  A failed axios call either carries a response
with an HTTP status (`ReqError.withStatus`) or has no response at all
(`ReqError.noResponse`, e.g. a network error).  `retryableRequest`
returns the final outcome, the total number of milliseconds slept
across all retries, and the total number of invocations of the
operation. -/

inductive ReqError where
  | withStatus (status : Nat) : ReqError
  | noResponse : ReqError
deriving DecidableEq, Repr

def isRetryable (e : ReqError) : Bool :=
  match e with
  | .withStatus s => s == 503
  | .noResponse => false

def MAX_RETRIES : Nat := 3

def INITIAL_RETRY_DELAY : Nat := 5000

def retryableRequest {α : Type} (op : Nat → Except ReqError α) :
    Nat → Nat → Nat → Except ReqError α × Nat × Nat
  | 0, _, attempt =>
    match op attempt with
    | .ok v => (.ok v, 0, 1)
    | .error e => (.error e, 0, 1)
  | r + 1, delay, attempt =>
    match op attempt with
    | .ok v => (.ok v, 0, 1)
    | .error e =>
      if isRetryable e then
        let out := retryableRequest op r (delay * 2) (attempt + 1)
        (out.1, delay + out.2.1, out.2.2 + 1)
      else
        (.error e, 0, 1)

def retryWitnessOp : Nat → Except ReqError Nat :=
  fun i => if i < 3 then .error (.withStatus 503) else .ok 42

def retryWitness401Op : Nat → Except ReqError Nat :=
  fun _ => .error (.withStatus 401)

def retryTerm3Op : Nat → Except ReqError Nat :=
  fun i => if i < 2 then .error (.withStatus 503) else .ok 7

/-! ## HMAC-SHA256

Model of the node `crypto` calls used by the webhook handlers:
`crypto.createHmac('sha256', secret).update(payload).digest('hex')`.
SHA-256 (FIPS 180-4) and HMAC (RFC 2104) are implemented over byte
lists (naturals < 256), with 32-bit words represented as naturals
reduced mod 2^32, and the digest rendered as lowercase hexadecimal. -/

def m32 : Nat := 4294967296

def sha_K : List Nat :=
  [1116352408, 1899447441, 3049323471, 3921009573, 961987163, 1508970993,
   2453635748, 2870763221, 3624381080, 310598401, 607225278, 1426881987,
   1925078388, 2162078206, 2614888103, 3248222580, 3835390401, 4022224774,
   264347078, 604807628, 770255983, 1249150122, 1555081692, 1996064986,
   2554220882, 2821834349, 2952996808, 3210313671, 3336571891, 3584528711,
   113926993, 338241895, 666307205, 773529912, 1294757372, 1396182291,
   1695183700, 1986661051, 2177026350, 2456956037, 2730485921, 2820302411,
   3259730800, 3345764771, 3516065817, 3600352804, 4094571909, 275423344,
   430227734, 506948616, 659060556, 883997877, 958139571, 1322822218,
   1537002063, 1747873779, 1955562222, 2024104815, 2227730452, 2361852424,
   2428436474, 2756734187, 3204031479, 3329325298]

def sha_H0 : List Nat :=
  [1779033703, 3144134277, 1013904242, 2773480762, 1359893119, 2600822924, 528734635, 1541459225]

def rotr32 (k x : Nat) : Nat := Nat.lor (Nat.shiftRight x k) (Nat.shiftLeft x (32 - k)) % m32

def bsig0 (x : Nat) : Nat := rotr32 2 x ^^^ rotr32 13 x ^^^ rotr32 22 x

def bsig1 (x : Nat) : Nat := rotr32 6 x ^^^ rotr32 11 x ^^^ rotr32 25 x

def ssig0 (x : Nat) : Nat := rotr32 7 x ^^^ rotr32 18 x ^^^ (x >>> 3)

def ssig1 (x : Nat) : Nat := rotr32 17 x ^^^ rotr32 19 x ^^^ (x >>> 10)

def chF (x y z : Nat) : Nat := Nat.xor (Nat.land x y) (Nat.land (Nat.xor x 4294967295) z)

def majF (x y z : Nat) : Nat := Nat.xor (Nat.xor (Nat.land x y) (Nat.land x z)) (Nat.land y z)

def bytesToWords : List Nat → List Nat
  | b0 :: b1 :: b2 :: b3 :: rest =>
    (b0 * 16777216 + b1 * 65536 + b2 * 256 + b3) :: bytesToWords rest
  | _ => []

def wordsToBytes : List Nat → List Nat
  | [] => []
  | w :: ws => (w >>> 24) % 256 :: (w >>> 16) % 256 :: (w >>> 8) % 256 :: w % 256 :: wordsToBytes ws

def lenBytesBE (n : Nat) : List Nat :=
  [(n >>> 56) % 256, (n >>> 48) % 256, (n >>> 40) % 256, (n >>> 32) % 256,
   (n >>> 24) % 256, (n >>> 16) % 256, (n >>> 8) % 256, n % 256]

def sha256Pad (msg : List Nat) : List Nat :=
  msg ++ 128 :: List.replicate ((119 - msg.length % 64) % 64) 0 ++ lenBytesBE (msg.length * 8)

def schedule (w16 : List Nat) : List Nat :=
  (List.range 64).foldl
    (fun w i =>
      if i < 16 then w
      else w ++ [(w.getD (i - 16) 0 + ssig0 (w.getD (i - 15) 0) +
                  w.getD (i - 7) 0 + ssig1 (w.getD (i - 2) 0)) % m32])
    w16

def compressRound (w : List Nat) (s : List Nat) (i : Nat) : List Nat :=
  match s with
  | [a, b, c, d, e, f, g, h] =>
    let t1 := (h + bsig1 e + chF e f g + sha_K.getD i 0 + w.getD i 0) % m32
    let t2 := (bsig0 a + majF a b c) % m32
    [(t1 + t2) % m32, a, b, c, (d + t1) % m32, e, f, g]
  | _ => s

def compressBlock (hs : List Nat) (block : List Nat) : List Nat :=
  let w := schedule (bytesToWords block)
  List.zipWith (fun x y => (x + y) % m32) hs ((List.range 64).foldl (compressRound w) hs)

def sha256Chunks : List Nat → List Nat → List Nat
  | hs, [] => hs
  | hs, b :: rest =>
    sha256Chunks (compressBlock hs (List.take 64 (b :: rest))) (List.drop 64 (b :: rest))
termination_by _ l => l.length
decreasing_by simp [List.length_drop]; omega

def sha256Bytes (msg : List Nat) : List Nat :=
  wordsToBytes (sha256Chunks sha_H0 (sha256Pad msg))

def hmacKeyNorm (key : List Nat) : List Nat :=
  let k0 := if 64 < key.length then sha256Bytes key else key
  k0 ++ List.replicate (64 - k0.length) 0

def hmacSha256 (key msg : List Nat) : List Nat :=
  let k := hmacKeyNorm key
  sha256Bytes ((k.map (fun b => b ^^^ 0x5c)) ++ sha256Bytes ((k.map (fun b => b ^^^ 0x36)) ++ msg))

def hexDigitChar (n : Nat) : Char := "0123456789abcdef".data.getD n '0'

def byteToHexChars (n : Nat) : List Char := [hexDigitChar (n / 16 % 16), hexDigitChar (n % 16)]

def bytesToHex (bs : List Nat) : String := String.mk (bs.map byteToHexChars).flatten

/-- Model of `crypto.createHmac('sha256', key).update(msg).digest('hex')`:
the HMAC-SHA256 digest rendered as lowercase hexadecimal. -/
def hmacSha256Hex (key msg : List Nat) : String := bytesToHex (hmacSha256 key msg)

/-- UTF-8 encoding of a string as a byte list (node strings are digested
as UTF-8 by `hash.update`). -/
def utf8EncodeChar (c : Char) : List Nat :=
  let n := c.toNat
  if n < 128 then [n]
  else if n < 2048 then [192 ||| (n >>> 6), 128 ||| (n &&& 63)]
  else if n < 65536 then
    [224 ||| (n >>> 12), 128 ||| ((n >>> 6) &&& 63), 128 ||| (n &&& 63)]
  else
    [240 ||| (n >>> 18), 128 ||| ((n >>> 12) &&& 63), 128 ||| ((n >>> 6) &&& 63), 128 ||| (n &&& 63)]

def utf8Bytes (s : String) : List Nat := (s.data.map utf8EncodeChar).flatten

/-! ## JSON

Model of the JSON handling done by the express `body-parser` middleware
(`JSON.parse` over the raw request bytes, producing `req.body`) and of
`JSON.stringify`, which the webhook handlers apply to `req.body` to
obtain the string they digest.  Numbers are modelled as integers (a
fraction or exponent makes the parse fail in this model); object fields
keep their textual order, as JavaScript objects preserve insertion
order for string keys. -/

inductive Json where
  | obj (fields : List (String × Json)) : Json
  | arr (items : List Json) : Json
  | str (s : String) : Json
  | num (n : Int) : Json
  | bool (b : Bool) : Json
  | null : Json

def escapeJsonChar (c : Char) : List Char :=
  if c = '"' then ['\\', '"']
  else if c = '\\' then ['\\', '\\']
  else if c = '\n' then ['\\', 'n']
  else if c = '\t' then ['\\', 't']
  else if c = '\r' then ['\\', 'r']
  else if c.toNat < 32 then '\\' :: 'u' :: '0' :: '0' :: byteToHexChars c.toNat
  else [c]

mutual

def jsonStringifyChars : Json → List Char
  | .null => "null".data
  | .bool true => "true".data
  | .bool false => "false".data
  | .num n => (toString n).data
  | .str s => '"' :: (s.data.map escapeJsonChar).flatten ++ ['"']
  | .arr xs => '[' :: jsonStringifyArr xs ++ [']']
  | .obj fs => '\x7b' :: jsonStringifyObj fs ++ ['\x7d']

def jsonStringifyArr : List Json → List Char
  | [] => []
  | [x] => jsonStringifyChars x
  | x :: y :: xs => jsonStringifyChars x ++ ',' :: jsonStringifyArr (y :: xs)

def jsonStringifyObj : List (String × Json) → List Char
  | [] => []
  | [(k, v)] => '"' :: (k.data.map escapeJsonChar).flatten ++ '"' :: ':' :: jsonStringifyChars v
  | (k, v) :: f :: fs =>
    '"' :: (k.data.map escapeJsonChar).flatten ++ '"' :: ':' :: jsonStringifyChars v ++
      ',' :: jsonStringifyObj (f :: fs)

end

/-- Model of `JSON.stringify` on a parsed value. -/
def jsonStringify (j : Json) : String := String.mk (jsonStringifyChars j)

def skipWs : List Char → List Char
  | [] => []
  | c :: rest => if c = ' ' ∨ c = '\n' ∨ c = '\t' ∨ c = '\r' then skipWs rest else c :: rest

def unescapeChar (c : Char) : Option Char :=
  if c = '"' ∨ c = '\\' ∨ c = '/' then some c
  else if c = 'n' then some '\n'
  else if c = 't' then some '\t'
  else if c = 'r' then some '\r'
  else if c = 'b' then some (Char.ofNat 8)
  else if c = 'f' then some (Char.ofNat 12)
  else none

def parseStringBody : List Char → Option (List Char × List Char)
  | [] => none
  | '"' :: rest => some ([], rest)
  | '\\' :: c :: rest =>
    (unescapeChar c).bind
      (fun e => (parseStringBody rest).map (fun p : List Char × List Char => (e :: p.1, p.2)))
  | c :: rest => (parseStringBody rest).map (fun p => (c :: p.1, p.2))

def digitsToNat (ds : List Char) : Nat :=
  ds.foldl (fun acc c => acc * 10 + (c.toNat - 48)) 0

def parseNumberAfter (sign : Bool) (cs : List Char) : Option (Json × List Char) :=
  let ds := cs.takeWhile Char.isDigit
  let rest := cs.dropWhile Char.isDigit
  if ds = [] then none
  else
    match rest with
    | '.' :: _ => none
    | 'e' :: _ => none
    | 'E' :: _ => none
    | _ =>
      some (.num (if sign then -(digitsToNat ds : Int) else (digitsToNat ds : Int)), rest)

mutual

def parseValue : Nat → List Char → Option (Json × List Char)
  | 0, _ => none
  | fuel + 1, cs =>
    match skipWs cs with
    | '"' :: rest => (parseStringBody rest).map (fun p => (.str (String.mk p.1), p.2))
    | '\x7b' :: rest =>
      (match skipWs rest with
       | '\x7d' :: rest2 => some (.obj [], rest2)
       | _ => (parseMembers fuel rest).map (fun p => (.obj p.1, p.2)))
    | '[' :: rest =>
      (match skipWs rest with
       | ']' :: rest2 => some (.arr [], rest2)
       | _ => (parseItems fuel rest).map (fun p => (.arr p.1, p.2)))
    | 't' :: 'r' :: 'u' :: 'e' :: rest => some (.bool true, rest)
    | 'f' :: 'a' :: 'l' :: 's' :: 'e' :: rest => some (.bool false, rest)
    | 'n' :: 'u' :: 'l' :: 'l' :: rest => some (.null, rest)
    | '-' :: rest => parseNumberAfter true rest
    | rest => parseNumberAfter false rest

def parseMembers : Nat → List Char → Option (List (String × Json) × List Char)
  | 0, _ => none
  | fuel + 1, cs =>
    match skipWs cs with
    | '"' :: rest =>
      (parseStringBody rest).bind (fun kp =>
        match skipWs kp.2 with
        | ':' :: rest2 =>
          (parseValue fuel rest2).bind (fun vp =>
            match skipWs vp.2 with
            | ',' :: rest3 =>
              (parseMembers fuel rest3).map (fun mp =>
                ((String.mk kp.1, vp.1) :: mp.1, mp.2))
            | '\x7d' :: rest3 => some ([(String.mk kp.1, vp.1)], rest3)
            | _ => none)
        | _ => none)
    | _ => none

def parseItems : Nat → List Char → Option (List Json × List Char)
  | 0, _ => none
  | fuel + 1, cs =>
    (parseValue fuel cs).bind (fun vp =>
      match skipWs vp.2 with
      | ',' :: rest => (parseItems fuel rest).map (fun ip => (vp.1 :: ip.1, ip.2))
      | ']' :: rest => some ([vp.1], rest)
      | _ => none)

end

/-- Model of `JSON.parse` as performed by `body-parser` on the raw
request bytes: `jsonParse raw` is `req.body` when it succeeds; a parse
failure makes body-parser reject the request before the handler runs. -/
def jsonParse (s : String) : Option Json :=
  (parseValue (s.length + 1) s.data).bind
    (fun p => if skipWs p.2 = [] then some p.1 else none)

def jsonGet (j : Json) (k : String) : Option Json :=
  match j with
  | .obj fs => (fs.find? (fun p => p.1 == k)).map (fun p => p.2)
  | _ => none

def jsonStr? : Json → Option String
  | .str s => some s
  | _ => none

def jsonInt? : Json → Option Int
  | .num n => some n
  | _ => none

/-- Field access `req.body.action`. -/
def actionOf (body : Json) : Option String := (jsonGet body "action").bind jsonStr?

/-- Field access `req.body.pull_request.number`. -/
def prNumberOf (body : Json) : Option Int :=
  ((jsonGet body "pull_request").bind (fun p => jsonGet p "number")).bind jsonInt?

/-- Field access `req.body.repository.owner.login`. -/
def ownerOf (body : Json) : Option String :=
  (((jsonGet body "repository").bind (fun r => jsonGet r "owner")).bind
    (fun o => jsonGet o "login")).bind jsonStr?

/-- Field access `req.body.repository.name`. -/
def repoOf (body : Json) : Option String :=
  ((jsonGet body "repository").bind (fun r => jsonGet r "name")).bind jsonStr?

/-! ## String helpers

Embeddings of the JavaScript string operations used by the handlers:
`String.prototype.trim`, `split('\n')`, `join('\n')`, and splitting on
a multi-character separator (`split('diff --git')`). -/

def trimChars (cs : List Char) : List Char :=
  ((cs.dropWhile Char.isWhitespace).reverse.dropWhile Char.isWhitespace).reverse

def jsTrim (s : String) : String := String.mk (trimChars s.data)

def splitOnNl : List Char → List (List Char)
  | [] => [[]]
  | '\n' :: rest => [] :: splitOnNl rest
  | c :: rest =>
    match splitOnNl rest with
    | l :: ls => (c :: l) :: ls
    | [] => [[c]]

def joinNl : List (List Char) → List Char
  | [] => []
  | [l] => l
  | l :: l2 :: ls => l ++ '\n' :: joinNl (l2 :: ls)

def breakOnSubstr (sep : List Char) : List Char → Option (List Char × List Char)
  | [] => none
  | c :: rest =>
    if sep.isPrefixOf (c :: rest) then some ([], List.drop sep.length (c :: rest))
    else (breakOnSubstr sep rest).map (fun p => (c :: p.1, p.2))

def splitOnSepFuel (sep : List Char) : Nat → List Char → List (List Char)
  | 0, cs => [cs]
  | fuel + 1, cs =>
    match breakOnSubstr sep cs with
    | none => [cs]
    | some (pre, post) => pre :: splitOnSepFuel sep fuel post

/-- Embedding of `diff.split('diff --git')`.  The fuel `cs.length + 1`
is always sufficient: each successful `breakOnSubstr` on the nonempty
separator consumes at least one character of the remainder, so at most
`cs.length` splits can occur. -/
def splitDiffGit (cs : List Char) : List (List Char) :=
  splitOnSepFuel "diff --git".data (cs.length + 1) cs

/-! ## processDiff

Embedding of `processDiff` (src/app.js lines 313-339):

```js
function processDiff(diff) {
  const fileDiffs = diff.split('diff --git');
  const processedDiffs = fileDiffs.map(fileDiff => {
    if (!fileDiff.trim()) return '';
    const fileNameMatch = fileDiff.match(/a\/(.+) b\/(.+)/);
    const fileName = fileNameMatch ? fileNameMatch[2] : 'Unknown file';
    const cleanedDiff = fileDiff.replace(/index .+\n/, '').replace(/new file mode .+\n/, '');
    const formattedDiff = cleanedDiff.split('\n').map(line => {
      if (line.startsWith('+')) return `+ ${line.slice(1)}`;
      if (line.startsWith('-')) return `- ${line.slice(1)}`;
      return `  ${line}`;
    }).join('\n');
    return `File: ${fileName}\n${formattedDiff}\n`;
  });
  return processedDiffs.join('\n');
}
```

The regex `/a\/(.+) b\/(.+)/` is emulated with JavaScript semantics:
leftmost match position, `.` not matching a newline, the first group
greedy (so the separator ` b/` is the last one on the line that leaves
at least one character on each side), group 2 running to the end of the
line.  `replace(/index .+\n/, '')` removes the first occurrence of the
substring `index ` followed by at least one non-newline character and a
newline, up to and including that newline (and similarly for
`new file mode `). -/

def lastBSplit : List Char → Option (List Char)
  | [] => none
  | c :: rest =>
    match lastBSplit rest with
    | some y => some y
    | none =>
      if [' ', 'b', '/'].isPrefixOf (c :: rest) then
        match List.drop 3 (c :: rest) with
        | [] => none
        | y :: ys => some (y :: ys)
      else none

def fileNameMatchAt (cs : List Char) : Option (List Char) :=
  if ['a', '/'].isPrefixOf cs then
    match (List.drop 2 cs).takeWhile (fun x => x ≠ '\n') with
    | [] => none
    | _ :: lrest => lastBSplit lrest
  else none

def findFileName : List Char → Option (List Char)
  | [] => none
  | c :: rest =>
    match fileNameMatchAt (c :: rest) with
    | some y => some y
    | none => findFileName rest

def fileNameOf (sec : List Char) : List Char :=
  match findFileName sec with
  | some y => y
  | none => "Unknown file".data

def linePatMatchAt (tag : List Char) (cs : List Char) : Bool :=
  tag.isPrefixOf cs &&
    (let after := List.drop tag.length cs
     match after.takeWhile (fun x => x ≠ '\n') with
     | [] => false
     | _ => match after.dropWhile (fun x => x ≠ '\n') with
            | '\n' :: _ => true
            | _ => false)

def replaceLinePattern (tag : List Char) : List Char → List Char
  | [] => []
  | c :: rest =>
    if linePatMatchAt tag (c :: rest) then
      ((List.drop tag.length (c :: rest)).dropWhile (fun x => x ≠ '\n')).tail
    else c :: replaceLinePattern tag rest

def cleanSection (sec : List Char) : List Char :=
  replaceLinePattern "new file mode ".data (replaceLinePattern "index ".data sec)

def formatLineChars (l : List Char) : List Char :=
  match l with
  | [] => [' ', ' ']
  | c :: rest =>
    if c = '+' then '+' :: ' ' :: rest
    else if c = '-' then '-' :: ' ' :: rest
    else ' ' :: ' ' :: c :: rest

def renderSectionLines (cs : List Char) : List Char :=
  joinNl ((splitOnNl cs).map formatLineChars)

def processSection (sec : List Char) : List Char :=
  if trimChars sec = [] then []
  else "File: ".data ++ fileNameOf sec ++ '\n' :: renderSectionLines (cleanSection sec) ++ ['\n']

/-- Embedding of `processDiff` itself. -/
def processDiff (diff : String) : String :=
  String.mk (joinNl ((splitDiffGit diff.data).map processSection))

/-- Rendering of a per-file section exactly as claim C9 describes the
transform: prefix the section with the extracted file name and rewrite
every line of the section by the `+`/`-`/two-space rule — with no other
change to the section's lines. -/
def claimSection (sec : List Char) : List Char :=
  if trimChars sec = [] then []
  else "File: ".data ++ fileNameOf sec ++ '\n' :: renderSectionLines sec ++ ['\n']

/-- The diff transform exactly as claim C9 describes it (split into
per-file sections, then `claimSection` on each), to be compared with
the source's `processDiff`. -/
def processDiffClaimSpec (diff : String) : String :=
  String.mk (joinNl ((splitDiffGit diff.data).map claimSection))

def c9diff : String := "diff --git a/f b/f\nindex 1234\n+x"

/-! ## Title extraction and the advisory note

Embedding of the post-processing of the generated review text
(src/app.js lines 265-282, src/unnamed/part_000 lines 141-155):

```js
let prTitle = 'AI Review: Code Changes';
const titleMatch = reviewComment.match(/Title: (.+)/);
if (titleMatch) {
  prTitle = titleMatch[1].trim();
  reviewComment = reviewComment.replace(/Title: .+\n?/, '');
}
if (reviewComment.split('\n').length < 10 || reviewComment.length < 500) {
  reviewComment += "\n\nNote: ...";
}
```

The regex `/Title: (.+)/` is not anchored to the start of a line: it
matches the first occurrence of the substring `Title: ` that is
followed by at least one non-newline character, and its group runs to
the end of that line.  `replace(/Title: .+\n?/, '')` removes the same
matched span together with the newline that follows it, if any. -/

def titleMatchAt (cs : List Char) : Bool :=
  "Title: ".data.isPrefixOf cs &&
    (match List.drop 7 cs with
     | c :: _ => c != '\n'
     | [] => false)

def splitTitle : List Char → Option (List Char × List Char × List Char)
  | [] => none
  | c :: rest =>
    if titleMatchAt (c :: rest) then
      some ([], (List.drop 7 (c :: rest)).takeWhile (fun x => x ≠ '\n'),
            (List.drop 7 (c :: rest)).dropWhile (fun x => x ≠ '\n'))
    else (splitTitle rest).map (fun p => (c :: p.1, p.2.1, p.2.2))

def hasTitleOcc : List Char → Bool
  | [] => false
  | c :: rest => titleMatchAt (c :: rest) || hasTitleOcc rest

/-- Reading of claim C7's phrase "contains a line matching the pattern
`Title: <text>`": some line of the string starts with `Title: `. -/
def hasTitleLine (s : String) : Bool :=
  (splitOnNl s.data).any (fun ln => "Title: ".data.isPrefixOf ln)

def defaultPrTitle : String := "AI Review: Code Changes"

/-- Title extraction and stripping: returns (prTitle, reviewComment). -/
def extractTitleAndStrip (review : String) : String × String :=
  match splitTitle review.data with
  | none => (defaultPrTitle, review)
  | some (pre, cap, rem) => (jsTrim (String.mk cap), String.mk (pre ++ rem.tail))

def reviewNote : String :=
  "\n\nNote: This AI-generated review may be incomplete. Please review the changes manually as well."

def isShortReview (lineThresh lenThresh : Nat) (s : String) : Bool :=
  decide ((splitOnNl s.data).length < lineThresh) || decide (s.length < lenThresh)

/-- Minimum-richness check and advisory note: src/app.js lines 279-282
use thresholds (10, 500); src/unnamed/part_000 lines 152-155 use
(3, 100). -/
def appendNoteIfShort (lineThresh lenThresh : Nat) (s : String) : String :=
  if isShortReview lineThresh lenThresh s then s ++ reviewNote else s

/-! ## The webhook handler (global-secret revisions)

Embedding of `app.post('/webhook', ...)` of src/app.js lines 202-311;
the signature check and the action filter are identical in src/app.js
lines 68-121, src/unnamed/part_000 lines 83-95 and
src/unnamed/part_002 lines 83-97.  The handler receives the parsed
body `req.body`, the `x-hub-signature-256` header (absent modelled as
`none`), the configured secret, and an oracle for the outcomes of its
external calls; it returns its HTTP response, the ordered trace of
external calls it performed, and the total milliseconds slept inside
`retryableRequest`.  A missing field whose access would throw a
`TypeError` in JavaScript (e.g. `req.body.pull_request.number` on a
payload with no `pull_request`) is modelled as the `crashed` response
with an empty call trace. -/

inductive Resp where
  | unauthorized : Resp
  | ignored : Resp
  | success : Resp
  | serverError : Resp
  | crashed : Resp
deriving DecidableEq, Repr

def respStatus : Resp → Nat
  | .unauthorized => 401
  | .ignored => 200
  | .success => 200
  | .serverError => 500
  | .crashed => 500

inductive ExtCall where
  | getPR (owner repo : String) (num : Int)
  | getDiff (url : String)
  | aiCall (prompt : String)
  | patchPR (owner repo : String) (num : Int) (title body : String)
  | postComment (owner repo : String) (num : Int) (body : String)
deriving DecidableEq, Repr

structure WorldV2 where
  prResp : Except ReqError Json
  diffResp : Except ReqError String
  aiResp : Nat → Except ReqError Json
  patchResp : Except ReqError Unit
  commentResp : Except ReqError Unit

/-- The signature string the handler computes:
`'sha256=' + crypto.createHmac('sha256', secret).update(JSON.stringify(req.body)).digest('hex')`. -/
def expectedSig (secret : String) (body : Json) : String :=
  "sha256=" ++ hmacSha256Hex (utf8Bytes secret) (utf8Bytes (jsonStringify body))

def verifySig (secret : String) (sigHeader : Option String) (body : Json) : Bool :=
  match sigHeader with
  | some s => s == expectedSig secret body
  | none => false

def diffUrlOf (prJson : Json) : String :=
  ((jsonGet prJson "diff_url").bind jsonStr?).getD "undefined"

/-- Condition `aiResponse.data && aiResponse.data[0] && aiResponse.data[0].generated_text`
with the extracted text: the data must be a nonempty array whose first
element has a string field `generated_text`, and the empty string is
falsy in JavaScript. -/
def generatedTextOf (aiData : Json) : Option String :=
  match aiData with
  | .arr (x :: _) =>
    (match (jsonGet x "generated_text").bind jsonStr? with
     | some s => if s == "" then none else some s
     | none => none)
  | _ => none

def aiPromptV2 (processed : String) : String :=
  "You are an expert code reviewer. Review the following code changes and provide a brief, focused review:\n\n      CODE CHANGES:\n      " ++
  processed ++
  "\n      \n      INSTRUCTIONS:\n      Provide a brief review (3-4 lines) that includes:\n      1. A summary of the main changes.\n      2. Any potential issues or improvements.\n      3. An overall recommendation (approve, request changes, or need discussion).\n      \n      Your review should be concise and focus only on the most important aspects of the code changes."

def fallbackReviewMsg : String :=
  "Unable to generate a detailed AI review at this time. Please review the changes manually."

/-- Post-processing of the generation backend's response data:
title extraction, stripping, and the advisory note (thresholds 10 and
500, src/app.js lines 265-286); the fallback message when the response
shape is unexpected. -/
def postProcessAi (aiData : Json) : String × String :=
  match generatedTextOf aiData with
  | some txt =>
    let p := extractTitleAndStrip (jsTrim txt)
    (p.1, appendNoteIfShort 10 500 p.2)
  | none => (defaultPrTitle, fallbackReviewMsg)

/-- Body of the `try` block for a qualifying event: fetch the PR, fetch
the diff, call the generation backend through `retryableRequest`,
post-process, patch the PR, post the comment; any failure yields the
500 response. -/
def processPrV2 (o rp : String) (n : Int) (w : WorldV2) : Resp × List ExtCall × Nat :=
  match w.prResp with
  | .error _ => (.serverError, [.getPR o rp n], 0)
  | .ok prJson =>
    match w.diffResp with
    | .error _ => (.serverError, [.getPR o rp n, .getDiff (diffUrlOf prJson)], 0)
    | .ok diffText =>
      let prompt := aiPromptV2 (processDiff diffText)
      let res := retryableRequest w.aiResp MAX_RETRIES INITIAL_RETRY_DELAY 0
      let baseCalls := ExtCall.getPR o rp n :: ExtCall.getDiff (diffUrlOf prJson) ::
        List.replicate res.2.2 (ExtCall.aiCall prompt)
      match res.1 with
      | .error _ => (.serverError, baseCalls, res.2.1)
      | .ok aiData =>
        let tb := postProcessAi aiData
        match w.patchResp with
        | .error _ => (.serverError, baseCalls ++ [.patchPR o rp n tb.1 tb.2], res.2.1)
        | .ok _ =>
          match w.commentResp with
          | .error _ =>
            (.serverError,
             baseCalls ++ [.patchPR o rp n tb.1 tb.2,
                           .postComment o rp n ("AI Code Review:\n\n" ++ tb.2)], res.2.1)
          | .ok _ =>
            (.success,
             baseCalls ++ [.patchPR o rp n tb.1 tb.2,
                           .postComment o rp n ("AI Code Review:\n\n" ++ tb.2)], res.2.1)

/-- The webhook handler: signature check, then action filter, then the
`try` block. -/
def handleWebhookV2 (secret : String) (sigHeader : Option String) (body : Json)
    (w : WorldV2) : Resp × List ExtCall × Nat :=
  if verifySig secret sigHeader body then
    if actionOf body == some "opened" || actionOf body == some "synchronize" then
      match prNumberOf body, ownerOf body, repoOf body with
      | some n, some o, some rp => processPrV2 o rp n w
      | _, _, _ => (.crashed, [], 0)
    else (.ignored, [], 0)
  else (.unauthorized, [], 0)

/-- The handler as a function of the raw bytes on the wire: body-parser
parses them and the handler only ever sees the parsed value (`none`
when the body is not valid JSON, in which case body-parser rejects the
request before the handler runs). -/
def handleWebhookV2Raw (secret : String) (sigHeader : Option String) (raw : String)
    (w : WorldV2) : Option (Resp × List ExtCall × Nat) :=
  (jsonParse raw).map (fun body => handleWebhookV2 secret sigHeader body w)

/-- The string the handler digests, as a function of the raw bytes
received on the wire: `JSON.stringify(req.body)` where
`req.body = JSON.parse(raw)`. -/
def digestBaseOfRaw (raw : String) : Option String :=
  (jsonParse raw).map jsonStringify

/-- The computed signature as a function of the raw bytes received. -/
def computedSigOfRaw (secret raw : String) : Option String :=
  (jsonParse raw).map (fun body => expectedSig secret body)

/-! ## The webhook handler of the MongoDB revision

Embedding of `app.post('/webhook', ...)` of src/unnamed/part_000 lines
379-434 (the revision with per-repository `Webhook` registrations in
MongoDB): look up the registration for the repository named in the
payload; with no registration on file, answer 404 `Not found` without
computing any signature; otherwise verify the HMAC with the stored
secret, answer 401 on mismatch, and process only `action === 'opened'`
events.  The third result component records the secret the handler fed
to `crypto.createHmac`, `none` when no signature was computed. -/

structure WebhookReg where
  repoOwner : String
  repoName : String
  webhookId : Nat
  secret : String

/-- Model of `Webhook.findOne({ repoOwner: ..., repoName: ... })`. -/
def findWebhook (store : List WebhookReg) (owner name : String) : Option WebhookReg :=
  store.find? (fun wr => wr.repoOwner == owner && wr.repoName == name)

inductive RespB where
  | notFound : RespB
  | unauthorized : RespB
  | ignored : RespB
  | reviewed : RespB
  | err : RespB
  | crashed : RespB
deriving DecidableEq, Repr

def respBStatus : RespB → Nat
  | .notFound => 404
  | .unauthorized => 401
  | .ignored => 200
  | .reviewed => 200
  | .err => 500
  | .crashed => 500

inductive ExtCallB where
  | getFiles (url : String)
  | aiReview (prompts : List String)
  | postComment (owner repo : String) (num : Option Int) (body : String)
deriving DecidableEq, Repr

structure WorldB where
  filesResp : Except ReqError Json
  aiResp : Except ReqError (List String)
  commentResp : Except ReqError Unit

/-- Prompts built by `reviewPRWithAI` from the changed-files response. -/
def filePrompts (files : Json) : List String :=
  match files with
  | .arr xs =>
    xs.map (fun f =>
      "Review the following changes in " ++
        (((jsonGet f "filename").bind jsonStr?).getD "undefined") ++ ": " ++
        (((jsonGet f "patch").bind jsonStr?).getD "undefined"))
  | _ => []

def handleWebhookMongo (store : List WebhookReg) (sigHeader : Option String) (body : Json)
    (w : WorldB) : RespB × List ExtCallB × Option String :=
  match ownerOf body, repoOf body with
  | some o, some r =>
    (match findWebhook store o r with
     | none => (.notFound, [], none)
     | some wh =>
       if verifySig wh.secret sigHeader body then
         if actionOf body == some "opened" then
           match jsonGet body "pull_request" with
           | none => (.crashed, [], some wh.secret)
           | some pr =>
             let filesUrl := (((jsonGet pr "url").bind jsonStr?).getD "undefined") ++ "/files"
             match w.filesResp with
             | .error _ => (.err, [.getFiles filesUrl], some wh.secret)
             | .ok files =>
               match w.aiResp with
               | .error _ =>
                 (.err, [.getFiles filesUrl, .aiReview (filePrompts files)], some wh.secret)
               | .ok revs =>
                 match w.commentResp with
                 | .error _ =>
                   (.err,
                    [.getFiles filesUrl, .aiReview (filePrompts files),
                     .postComment o r ((jsonGet pr "number").bind jsonInt?)
                       (String.intercalate "\n\n" revs)], some wh.secret)
                 | .ok _ =>
                   (.reviewed,
                    [.getFiles filesUrl, .aiReview (filePrompts files),
                     .postComment o r ((jsonGet pr "number").bind jsonInt?)
                       (String.intercalate "\n\n" revs)], some wh.secret)
         else (.ignored, [], some wh.secret)
       else (.unauthorized, [], some wh.secret))
  | _, _ => (.crashed, [], none)

/-! ## Concrete inputs for witnesses and counterexamples -/

def emptyWorldV2 : WorldV2 :=
  ⟨.error .noResponse, .error .noResponse, fun _ => .error .noResponse,
   .error .noResponse, .error .noResponse⟩

def emptyWorldB : WorldB := ⟨.error .noResponse, .error .noResponse, .error .noResponse⟩

def c3raw1 : String := "\x7b\"a\":1\x7d"

def c3raw2 : String := "\x7b \"a\" : 1 \x7d"

def c3body : Json := Json.obj [("a", Json.num 1)]

def bodyClosed : Json := Json.obj [("action", Json.str "closed")]

def bodyOpened : Json :=
  Json.obj [("action", Json.str "opened"),
            ("pull_request", Json.obj [("number", Json.num 42)]),
            ("repository", Json.obj [("owner", Json.obj [("login", Json.str "alice")]),
                                     ("name", Json.str "repo1")])]

lemma retryableRequest_ok {α : Type} (op : Nat → Except ReqError α) (v : α)
    (retries delay attempt : Nat) (h : op attempt = .ok v) :
    retryableRequest op retries delay attempt = (.ok v, 0, 1) := by
  cases retries <;> simp [retryableRequest, h]

lemma retryableRequest_zero {α : Type} (op : Nat → Except ReqError α) (e : ReqError)
    (delay attempt : Nat) (h : op attempt = .error e) :
    retryableRequest op 0 delay attempt = (.error e, 0, 1) := by
  simp [retryableRequest, h]

lemma retryableRequest_retry {α : Type} (op : Nat → Except ReqError α) (e : ReqError)
    (r delay attempt : Nat) (h : op attempt = .error e) (hr : isRetryable e = true) :
    retryableRequest op (r + 1) delay attempt =
      ((retryableRequest op r (delay * 2) (attempt + 1)).1,
       delay + (retryableRequest op r (delay * 2) (attempt + 1)).2.1,
       (retryableRequest op r (delay * 2) (attempt + 1)).2.2 + 1) := by
  simp [retryableRequest, h, hr]

lemma retryableRequest_noRetry {α : Type} (op : Nat → Except ReqError α) (e : ReqError)
    (retries delay attempt : Nat) (h : op attempt = .error e) (hr : isRetryable e = false) :
    retryableRequest op retries delay attempt = (.error e, 0, 1) := by
  cases retries <;> simp [retryableRequest, h, hr]

lemma sum_two_pow (n : Nat) : (∑ i ∈ Finset.range n, 2 ^ i) = 2 ^ n - 1 := by
  induction n with
  | zero => simp
  | succ m ih =>
    rw [Finset.sum_range_succ, ih, pow_succ]
    have h : 1 ≤ 2 ^ m := Nat.one_le_two_pow
    omega

lemma retryableRequest_backoff_aux {α : Type} (N : Nat) :
    ∀ (op : Nat → Except ReqError α) (v : α) (r d a : Nat),
      1 ≤ N → N ≤ r + 1 →
      (∀ i, i + 1 < N → op (a + i) = .error (.withStatus 503)) →
      op (a + (N - 1)) = .ok v →
      retryableRequest op r d a = (.ok v, d * (2 ^ (N - 1) - 1), N) := by
  induction N with
  | zero => intro _ _ _ _ _ h1; omega
  | succ M ih =>
    intro op v r d a _ h2 hfail hsucc
    cases M with
    | zero =>
      simp only [Nat.add_zero, Nat.sub_self, Nat.add_zero] at hsucc
      rw [retryableRequest_ok op v r d a hsucc]
      simp
    | succ M' =>
      have hop0 : op a = .error (.withStatus 503) := by
        have := hfail 0 (by omega)
        simpa using this
      obtain ⟨r', rfl⟩ : ∃ r', r = r' + 1 := ⟨r - 1, by omega⟩
      rw [retryableRequest_retry op _ r' d a hop0 (by simp [isRetryable])]
      have hrec := ih op v r' (d * 2) (a + 1) (by omega) (by omega)
        (fun i hi => by
          have := hfail (i + 1) (by omega)
          simpa [Nat.add_assoc, Nat.add_comm 1 i] using this)
        (by
          have : a + 1 + (M' + 1 - 1) = a + (M' + 1 + 1 - 1) := by omega
          rw [this]; exact hsucc)
      rw [hrec]
      refine Prod.ext rfl (Prod.ext ?_ rfl)
      show d + d * 2 * (2 ^ (M' + 1 - 1) - 1) = d * (2 ^ (M' + 1 + 1 - 1) - 1)
      simp only [Nat.add_sub_cancel]
      have hpow : 1 ≤ 2 ^ M' := Nat.one_le_two_pow
      have h2p : 2 ^ (M' + 1) = 2 ^ M' * 2 := pow_succ 2 M'
      rw [h2p]
      cases Nat.exists_eq_add_of_le hpow with
      | intro k hk =>
        rw [hk]
        have e1 : 1 + k - 1 = k := by omega
        have e2 : (1 + k) * 2 - 1 = 2 * k + 1 := by omega
        rw [e1, e2]
        ring

/-- C1: for every N with 1 ≤ N (and enough retry budget — the claim's
range `N ≤ max retries` is a sub-range of `N ≤ r + 1` proved here,
which also covers the spec's 5s + 10s + 20s = 35s example at N = 4,
r = 3), if the wrapped operation fails with HTTP status 503 on the
first N-1 invocations and succeeds on the N-th, `retryableRequest`
returns that success, having slept a total of
`d * (2^0 + 2^1 + ... + 2^(N-2))` milliseconds and invoked the
operation exactly N times (the delay doubles and the budget decreases
by one on each retry, by definition of `retryableRequest`).  With the
default initial delay d = 5000 and N = 4 the total sleep is
5000 + 10000 + 20000 = 35000 ms. -/
theorem retry_backoff_success {α : Type} (op : Nat → Except ReqError α) (v : α)
    (N r d : Nat) (h1 : 1 ≤ N) (h2 : N ≤ r + 1)
    (hfail : ∀ i, i + 1 < N → op i = .error (.withStatus 503))
    (hsucc : op (N - 1) = .ok v) :
    retryableRequest op r d 0 = (.ok v, d * (∑ i ∈ Finset.range (N - 1), 2 ^ i), N) := by
  rw [sum_two_pow]
  exact retryableRequest_backoff_aux N op v r d 0 h1 h2
    (fun i hi => by simpa using hfail i hi) (by simpa using hsucc)

/-- Witness for C1: three 503 failures then a success, with the default
budget of 3 retries and initial delay 5000 ms: the success is returned
after a total sleep of 5000 + 10000 + 20000 = 35000 ms and 4
invocations. -/
theorem retry_backoff_success_check :
    retryableRequest retryWitnessOp 3 5000 0 = (.ok 42, 5000 * (∑ i ∈ Finset.range 3, 2 ^ i), 4) :=
  retry_backoff_success retryWitnessOp 42 4 3 5000 (by decide) (by decide)
    (fun i hi => by
      have : i < 3 := by omega
      simp [retryWitnessOp, this])
    (by simp [retryWitnessOp])

/-- C2: a failure of the wrapped operation that does not carry HTTP
status 503 (for example a 401, or a failure with no response at all)
is propagated to the caller unchanged and immediately: zero
milliseconds slept and exactly one invocation in total (zero further
invocations), regardless of the remaining retry budget. -/
theorem retry_non503_fail_fast {α : Type} (op : Nat → Except ReqError α) (e : ReqError)
    (r d : Nat) (he : op 0 = .error e) (hn : e ≠ .withStatus 503) :
    retryableRequest op r d 0 = (.error e, 0, 1) := by
  apply retryableRequest_noRetry op e r d 0 he
  cases e with
  | withStatus s =>
    simp only [isRetryable, beq_eq_false_iff_ne, ne_eq]
    intro hs
    exact hn (by rw [hs])
  | noResponse => rfl

/-- Witness for C2: a 401 failure on the first attempt propagates at
once with zero sleep and one invocation even though 3 retries remain. -/
theorem retry_non503_fail_fast_check :
    retryableRequest retryWitness401Op 3 5000 0 = (.error (.withStatus 401), 0, 1) :=
  retry_non503_fail_fast retryWitness401Op (.withStatus 401) 3 5000 rfl (by decide)

/-- C10: `retryableRequest` always terminates (it is a total function)
with at least one and at most r + 1 invocations of the operation for a
retry budget r; if it returns a success, that success is the outcome of
its last invocation and all earlier invocations failed with status 503
(so the first success is returned); if it returns a failure, that
failure is the outcome of its last invocation, propagated unchanged. -/
theorem retry_terminates_bounded {α : Type} (op : Nat → Except ReqError α) (r d a : Nat) :
    1 ≤ (retryableRequest op r d a).2.2 ∧
    (retryableRequest op r d a).2.2 ≤ r + 1 ∧
    (∀ v, (retryableRequest op r d a).1 = .ok v →
      op (a + (retryableRequest op r d a).2.2 - 1) = .ok v ∧
      ∀ j, j + 1 < (retryableRequest op r d a).2.2 →
        op (a + j) = .error (.withStatus 503)) ∧
    (∀ e, (retryableRequest op r d a).1 = .error e →
      op (a + (retryableRequest op r d a).2.2 - 1) = .error e) := by
  induction r generalizing d a with
  | zero =>
    cases hop : op a with
    | ok v =>
      rw [retryableRequest_ok op v 0 d a hop]
      refine ⟨by simp, by simp, ?_, ?_⟩
      · intro w hw
        simp only at hw
        cases hw
        constructor
        · simpa using hop
        · intro j hj
          simp at hj
      · intro e he; simp at he
    | error e =>
      rw [retryableRequest_zero op e d a hop]
      refine ⟨by simp, by simp, ?_, ?_⟩
      · intro w hw; simp at hw
      · intro e' he'
        simp only at he'
        cases he'
        simpa using hop
  | succ r' ih =>
    cases hop : op a with
    | ok v =>
      rw [retryableRequest_ok op v (r' + 1) d a hop]
      refine ⟨by simp, by simp, ?_, ?_⟩
      · intro w hw
        simp only at hw
        cases hw
        constructor
        · simpa using hop
        · intro j hj
          simp at hj
      · intro e he; simp at he
    | error e =>
      cases hr : isRetryable e with
      | false =>
        rw [retryableRequest_noRetry op e (r' + 1) d a hop hr]
        refine ⟨by simp, by simp, ?_, ?_⟩
        · intro w hw; simp at hw
        · intro e' he'
          simp only at he'
          cases he'
          simpa using hop
      | true =>
        have he503 : e = .withStatus 503 := by
          cases e with
          | withStatus s =>
            simp only [isRetryable, beq_iff_eq] at hr
            rw [hr]
          | noResponse => simp [isRetryable] at hr
        rw [retryableRequest_retry op e r' d a hop hr]
        obtain ⟨ih1, ih2, ih3, ih4⟩ := ih (d * 2) (a + 1)
        refine ⟨by simp, by simp; omega, ?_, ?_⟩
        · intro v hv
          simp only at hv
          obtain ⟨hlast, hearlier⟩ := ih3 v hv
          constructor
          · have harith : a + ((retryableRequest op r' (d * 2) (a + 1)).2.2 + 1) - 1 =
                a + 1 + (retryableRequest op r' (d * 2) (a + 1)).2.2 - 1 := by omega
            rw [harith]
            exact hlast
          · intro j hj
            simp only at hj
            cases j with
            | zero => simpa [he503] using hop
            | succ j' =>
              have harith : a + (j' + 1) = a + 1 + j' := by omega
              rw [harith]
              exact hearlier j' (by omega)
        · intro e' he'
          simp only at he'
          have harith : a + ((retryableRequest op r' (d * 2) (a + 1)).2.2 + 1) - 1 =
              a + 1 + (retryableRequest op r' (d * 2) (a + 1)).2.2 - 1 := by omega
          rw [harith]
          exact ih4 e' he'

/-- Witness for C10: with a budget of 3 and an operation failing twice
with 503 then succeeding, the invocation count is 3 ≤ 4, the result is
the success of the last (third) invocation, and the first invocation
was a 503 failure. -/
theorem retry_terminates_bounded_check :
    (retryableRequest retryTerm3Op 3 5000 0).2.2 ≤ 3 + 1 ∧
    retryTerm3Op (0 + (retryableRequest retryTerm3Op 3 5000 0).2.2 - 1) = .ok 7 ∧
    retryTerm3Op (0 + 0) = .error (.withStatus 503) :=
  ⟨(retry_terminates_bounded retryTerm3Op 3 5000 0).2.1,
   ((retry_terminates_bounded retryTerm3Op 3 5000 0).2.2.1 7 rfl).1,
   ((retry_terminates_bounded retryTerm3Op 3 5000 0).2.2.1 7 rfl).2 0 (by decide)⟩

/-! ## The webhook digest base and signature gate (C3, C4) -/

lemma hexDigitChar_mem (n : Nat) : hexDigitChar n ∈ "0123456789abcdef".data := by
  by_cases h : n < 16
  · interval_cases n <;> decide
  · unfold hexDigitChar
    rw [List.getD_eq_default]
    · decide
    · have hl : ("0123456789abcdef".data).length = 16 := rfl
      omega

lemma bytesToHex_mem (bs : List Nat) : ∀ c ∈ (bytesToHex bs).data, c ∈ "0123456789abcdef".data := by
  intro c hc
  have hc2 : c ∈ (bs.map byteToHexChars).flatten := hc
  rw [List.mem_flatten] at hc2
  obtain ⟨l, hl, hcl⟩ := hc2
  rw [List.mem_map] at hl
  obtain ⟨b, _, rfl⟩ := hl
  simp only [byteToHexChars, List.mem_cons, List.mem_singleton] at hcl
  rcases hcl with rfl | rfl | h
  · exact hexDigitChar_mem _
  · exact hexDigitChar_mem _
  · cases h

lemma hmacSha256Hex_all_hex (key msg : List Nat) :
    (hmacSha256Hex key msg).data.all (fun c => "0123456789abcdef".data.contains c) = true := by
  rw [List.all_eq_true]
  intro c hc
  exact List.elem_eq_true_of_mem (bytesToHex_mem _ c hc)

lemma processPrV2_fst_ne_unauthorized (o rp : String) (n : Int) (w : WorldV2) :
    (processPrV2 o rp n w).1 ≠ Resp.unauthorized := by
  unfold processPrV2
  rcases w.prResp with _ | prJson
  · simp
  · rcases w.diffResp with _ | diffText
    · simp
    · rcases hres : (retryableRequest w.aiResp MAX_RETRIES INITIAL_RETRY_DELAY 0).1 with _ | aiData
      · simp [hres]
      · rcases w.patchResp with _ | _
        · simp [hres]
        · rcases w.commentResp with _ | _ <;> simp [hres]

/-- C3 (the claim is refuted by the code; a digest over the raw bytes is
the documented intent): the handler digests `JSON.stringify(req.body)`,
a re-serialization of the parsed body, not the raw bytes received.  The
two distinct wire payloads `c3raw1` and `c3raw2` differ only in
whitespace and parse to the same JSON value, yet the handler computes
the same digest base, the same signature for any secret, behaves
identically on both, and accepts both under the one declared signature
(here the event has no qualifying action, so acceptance surfaces as the
200 `Ignored` acknowledgment rather than a 401) — whereas the claim
asserts the two deliveries would yield different digests and could not
both be accepted. -/
theorem webhook_digest_reserialized :
    c3raw1 ≠ c3raw2 ∧
    jsonParse c3raw1 = some c3body ∧
    jsonParse c3raw2 = some c3body ∧
    digestBaseOfRaw c3raw1 = digestBaseOfRaw c3raw2 ∧
    computedSigOfRaw "topsecret" c3raw1 = computedSigOfRaw "topsecret" c3raw2 ∧
    handleWebhookV2Raw "topsecret" (some (expectedSig "topsecret" c3body)) c3raw1 emptyWorldV2 =
      handleWebhookV2Raw "topsecret" (some (expectedSig "topsecret" c3body)) c3raw2 emptyWorldV2 ∧
    (handleWebhookV2Raw "topsecret" (some (expectedSig "topsecret" c3body)) c3raw1
        emptyWorldV2).map (fun out => out.1) = some Resp.ignored := by
  refine ⟨by decide, rfl, rfl, rfl, rfl, rfl, ?_⟩
  have hp : jsonParse c3raw1 = some c3body := rfl
  rw [handleWebhookV2Raw, hp, Option.map_some', Option.map_some']
  have hv : verifySig "topsecret" (some (expectedSig "topsecret" c3body)) c3body = true := by
    simp [verifySig]
  have ha : actionOf c3body = none := rfl
  rw [handleWebhookV2, if_pos hv, ha]
  rfl

/-- C4: with the payload string P being `JSON.stringify(req.body)` (see
C3), the handler proceeds past the signature check exactly when the
declared header D equals `'sha256=' +` the lowercase hexadecimal
HMAC-SHA256 of P keyed by the secret S; on any mismatch it answers 401
with an empty external-call trace and zero sleep — no GitHub read or
write occurs.  The last conjunct records that the digest rendering is
lowercase hexadecimal. -/
theorem webhook_signature_gate (secret : String) (body : Json) (D : String) (w : WorldV2) :
    (handleWebhookV2 secret (some D) body w = (Resp.unauthorized, [], 0) ↔
      D ≠ expectedSig secret body) ∧
    respStatus Resp.unauthorized = 401 ∧
    expectedSig secret body =
      "sha256=" ++ hmacSha256Hex (utf8Bytes secret) (utf8Bytes (jsonStringify body)) ∧
    (hmacSha256Hex (utf8Bytes secret) (utf8Bytes (jsonStringify body))).data.all
      (fun c => "0123456789abcdef".data.contains c) = true := by
  refine ⟨⟨?_, ?_⟩, rfl, rfl, hmacSha256Hex_all_hex _ _⟩
  · intro hout hD
    have hv : verifySig secret (some D) body = true := by
      simp [verifySig, hD]
    rw [handleWebhookV2, if_pos hv] at hout
    rcases hcond : (actionOf body == some "opened" || actionOf body == some "synchronize") with _ | _
    · rw [hcond] at hout
      simp at hout
    · rw [hcond] at hout
      simp only [if_true] at hout
      rcases hn : prNumberOf body with _ | n <;> rcases ho : ownerOf body with _ | o <;>
        rcases hr : repoOf body with _ | rp <;> rw [hn, ho, hr] at hout <;>
        first
        | exact processPrV2_fst_ne_unauthorized o rp n w (congrArg Prod.fst hout)
        | simp at hout
  · intro hD
    have hv : verifySig secret (some D) body = false := by
      simp [verifySig]
      exact hD
    rw [handleWebhookV2, if_neg (by rw [hv]; exact Bool.false_ne_true)]

/-! ## Registration lookup and action filter (C5, C6) -/

/-- C5: on a delivery targeting a repository with no `WebhookRegistration`
on file, the MongoDB-revision handler answers the 404 `Not found`
response, performs no external call at all, and feeds no secret
whatsoever to the HMAC (the third component records the secret passed
to `crypto.createHmac`; `none` means no signature computation happened
and no default or fallback secret was used). -/
theorem webhook_unregistered_notfound (store : List WebhookReg) (sigHeader : Option String)
    (body : Json) (w : WorldB) (o r : String)
    (ho : ownerOf body = some o) (hr : repoOf body = some r)
    (hnone : findWebhook store o r = none) :
    handleWebhookMongo store sigHeader body w = (RespB.notFound, [], none) ∧
    respBStatus RespB.notFound = 404 := by
  refine ⟨?_, rfl⟩
  simp only [handleWebhookMongo, ho, hr, hnone]

/-- Witness for C5: an empty registration store and a well-formed
`opened` payload yield the 404 outcome with no calls and no secret. -/
theorem webhook_unregistered_notfound_check :
    handleWebhookMongo [] none bodyOpened emptyWorldB = (RespB.notFound, [], none) :=
  (webhook_unregistered_notfound [] none bodyOpened emptyWorldB "alice" "repo1" rfl rfl rfl).1

lemma processPrV2_calls_head (o rp : String) (n : Int) (w : WorldV2) :
    ∃ rest, (processPrV2 o rp n w).2.1 = ExtCall.getPR o rp n :: rest := by
  unfold processPrV2
  rcases w.prResp with _ | prJson
  · exact ⟨_, rfl⟩
  · rcases w.diffResp with _ | diffText
    · exact ⟨_, rfl⟩
    · dsimp only
      rcases hres : (retryableRequest w.aiResp MAX_RETRIES INITIAL_RETRY_DELAY 0).1 with _ | aiData
      · exact ⟨_, rfl⟩
      · rcases w.patchResp with _ | _
        · exact ⟨_, rfl⟩
        · rcases w.commentResp with _ | _ <;> exact ⟨_, rfl⟩

/-- C6: for a verified event (the declared header is the handler's own
expected signature), an action outside {opened, synchronize} — or a
missing or non-string action — terminates in the 200 `Ignored`
acknowledgment with an empty external-call trace and zero sleep: no
diff fetch, no generation call, no PR patch, no comment; while an
event with action `opened` or `synchronize` (and the payload fields a
qualifying event carries) proceeds to diff retrieval: its trace starts
with the GitHub pull-request fetch. -/
theorem webhook_action_filtering (secret : String) (body : Json) (w : WorldV2) :
    ((∀ a, actionOf body = some a → a ≠ "opened" ∧ a ≠ "synchronize") →
      handleWebhookV2 secret (some (expectedSig secret body)) body w = (Resp.ignored, [], 0) ∧
      respStatus Resp.ignored = 200) ∧
    (∀ n o rp, (actionOf body = some "opened" ∨ actionOf body = some "synchronize") →
      prNumberOf body = some n → ownerOf body = some o → repoOf body = some rp →
      ∃ rest, (handleWebhookV2 secret (some (expectedSig secret body)) body w).2.1 =
        ExtCall.getPR o rp n :: rest) := by
  have hv : verifySig secret (some (expectedSig secret body)) body = true := by
    simp [verifySig]
  constructor
  · intro hno
    have hcond : (actionOf body == some "opened" || actionOf body == some "synchronize") = false := by
      cases ha : actionOf body with
      | none => rfl
      | some a =>
        obtain ⟨h1, h2⟩ := hno a ha
        simp [h1, h2]
    refine ⟨?_, rfl⟩
    rw [handleWebhookV2, if_pos hv, hcond]
    rfl
  · intro n o rp hact hn ho hr
    have hcond : (actionOf body == some "opened" || actionOf body == some "synchronize") = true := by
      rcases hact with h | h <;> simp [h]
    rw [handleWebhookV2, if_pos hv, hcond]
    simp only [if_true, hn, ho, hr]
    exact processPrV2_calls_head o rp n w

/-- Witness for C6: a verified `closed` event is ignored with an empty
trace, and a verified well-formed `opened` event's trace starts with
the pull-request fetch. -/
theorem webhook_action_filtering_check :
    handleWebhookV2 "s" (some (expectedSig "s" bodyClosed)) bodyClosed emptyWorldV2 =
      (Resp.ignored, [], 0) ∧
    (∃ rest, (handleWebhookV2 "s" (some (expectedSig "s" bodyOpened)) bodyOpened
      emptyWorldV2).2.1 = ExtCall.getPR "alice" "repo1" 42 :: rest) :=
  ⟨((webhook_action_filtering "s" bodyClosed emptyWorldV2).1 (fun a ha => by
      rw [show actionOf bodyClosed = some "closed" from rfl] at ha
      cases ha
      exact ⟨by decide, by decide⟩)).1,
   (webhook_action_filtering "s" bodyOpened emptyWorldV2).2 42 "alice" "repo1"
     (Or.inl rfl) rfl rfl rfl⟩

/-! ## Title extraction (C7) -/

lemma dropWhile_nil_or_head_false (p : Char → Bool) (l : List Char) :
    l.dropWhile p = [] ∨ ∃ x xs, l.dropWhile p = x :: xs ∧ p x = false := by
  induction l with
  | nil => exact Or.inl rfl
  | cons c cs ih =>
    cases hp : p c with
    | true => simpa [List.dropWhile_cons, hp] using ih
    | false => exact Or.inr ⟨c, cs, by simp [List.dropWhile_cons, hp], hp⟩

lemma isPrefixOf_eq_append {tag l : List Char} (h : tag.isPrefixOf l = true) :
    l = tag ++ List.drop tag.length l := by
  rw [List.isPrefixOf_iff_prefix] at h
  obtain ⟨t, rfl⟩ := h
  rw [List.drop_left]

lemma titleMatchAt_iff (cs : List Char) :
    titleMatchAt cs = true ↔
      "Title: ".data.isPrefixOf cs = true ∧
      ∃ c rest2, List.drop 7 cs = c :: rest2 ∧ c ≠ '\n' := by
  unfold titleMatchAt
  rw [Bool.and_eq_true]
  constructor
  · rintro ⟨h1, h2⟩
    refine ⟨h1, ?_⟩
    cases hd : List.drop 7 cs with
    | nil => rw [hd] at h2; exact absurd h2 (by simp)
    | cons c r2 =>
      rw [hd] at h2
      exact ⟨c, r2, rfl, by simpa using h2⟩
  · rintro ⟨h1, c, r2, hd, hc⟩
    refine ⟨h1, ?_⟩
    rw [hd]
    simpa using hc

lemma splitTitle_sound (cs : List Char) :
    ∀ pre cap rem, splitTitle cs = some (pre, cap, rem) →
      cs = pre ++ "Title: ".data ++ cap ++ rem ∧
      cap ≠ [] ∧
      (∀ c ∈ cap, c ≠ '\n') ∧
      (rem = [] ∨ ∃ rem2, rem = '\n' :: rem2) ∧
      (∀ p q, pre = p ++ q → q ≠ [] →
        titleMatchAt (q ++ "Title: ".data ++ cap ++ rem) = false) := by
  induction cs with
  | nil => intro pre cap rem h; simp [splitTitle] at h
  | cons c rest ih =>
    intro pre cap rem h
    cases hm : titleMatchAt (c :: rest) with
    | true =>
      rw [splitTitle, if_pos hm] at h
      obtain ⟨hpre, hcap, hrem⟩ : pre = [] ∧
          cap = (List.drop 7 (c :: rest)).takeWhile (fun x => x ≠ '\n') ∧
          rem = (List.drop 7 (c :: rest)).dropWhile (fun x => x ≠ '\n') := by
        cases h; exact ⟨rfl, rfl, rfl⟩
      obtain ⟨h1, c2, r2, hd, hc2⟩ := (titleMatchAt_iff (c :: rest)).mp hm
      have hlen : ("Title: ".data).length = 7 := rfl
      have happ : c :: rest = "Title: ".data ++ List.drop 7 (c :: rest) := by
        have := isPrefixOf_eq_append h1
        rwa [hlen] at this
      refine ⟨?_, ?_, ?_, ?_, ?_⟩
      · rw [hpre, hcap, hrem]
        simp only [List.nil_append, List.append_assoc, List.takeWhile_append_dropWhile]
        exact happ
      · rw [hcap, hd, List.takeWhile_cons_of_pos (by simpa using hc2)]
        simp
      · intro x hx
        rw [hcap] at hx
        have := List.mem_takeWhile_imp hx
        simpa using this
      · rw [hrem]
        rcases dropWhile_nil_or_head_false (fun x => x ≠ '\n') (List.drop 7 (c :: rest)) with
          hnil | ⟨x, xs, hx, hpx⟩
        · exact Or.inl hnil
        · right
          refine ⟨xs, ?_⟩
          have : x = '\n' := by simpa using hpx
          rw [hx, this]
      · intro p q hpq hq
        rw [hpre] at hpq
        have : q = [] := (List.append_eq_nil.mp hpq.symm).2
        exact absurd this hq
    | false =>
      rw [splitTitle, if_neg (by rw [hm]; exact Bool.false_ne_true)] at h
      cases hrec : splitTitle rest with
      | none => rw [hrec] at h; exact absurd h (by simp)
      | some p3 =>
        obtain ⟨pre', cap', rem'⟩ := p3
        rw [hrec, Option.map_some'] at h
        obtain ⟨hpre, hcap, hrem⟩ : pre = c :: pre' ∧ cap = cap' ∧ rem = rem' := by
          cases h; exact ⟨rfl, rfl, rfl⟩
        obtain ⟨ih1, ih2, ih3, ih4, ih5⟩ := ih pre' cap' rem' hrec
        subst hpre hcap hrem
        refine ⟨?_, ih2, ih3, ih4, ?_⟩
        · simp only [List.cons_append]
          exact congrArg (c :: ·) ih1
        · intro p q hpq hq
          cases p with
          | nil =>
            simp only [List.nil_append] at hpq
            rw [← hpq]
            have hq2 : (c :: pre') ++ "Title: ".data ++ cap ++ rem = c :: rest := by
              simp only [List.cons_append]
              exact congrArg (c :: ·) ih1.symm
            rw [hq2]
            exact hm
          | cons x p' =>
            obtain ⟨hcx, hpq'⟩ : c = x ∧ pre' = p' ++ q := by
              rw [List.cons_append] at hpq
              exact ⟨List.head_eq_of_cons_eq hpq, List.tail_eq_of_cons_eq hpq⟩
            exact ih5 p' q hpq' hq

lemma splitTitle_eq_none_iff (cs : List Char) :
    splitTitle cs = none ↔ hasTitleOcc cs = false := by
  induction cs with
  | nil => simp [splitTitle, hasTitleOcc]
  | cons c rest ih =>
    cases hm : titleMatchAt (c :: rest) with
    | true =>
      rw [splitTitle, if_pos hm, hasTitleOcc, hm]
      simp
    | false =>
      rw [splitTitle, if_neg (by rw [hm]; exact Bool.false_ne_true), hasTitleOcc, hm]
      simp [Option.map_eq_none', ih]

/-- C7 counterexample: the generated text `abc Title: X` contains no
line matching the pattern `Title: <text>` (no line starts with
`Title: `), so under the claim the fallback title would be used and the
body left unchanged — but the code's unanchored regex `/Title: (.+)/`
matches mid-line: the extracted title is `X` and the body is changed to
`abc `. -/
theorem title_line_claim_false :
    hasTitleLine "abc Title: X" = false ∧
    extractTitleAndStrip "abc Title: X" ≠ (defaultPrTitle, "abc Title: X") ∧
    extractTitleAndStrip "abc Title: X" = ("X", "abc ") := by
  refine ⟨by decide, by decide, by decide⟩

/-- C7 as amended: the extractor looks for an occurrence of `Title: `
followed by at least one non-newline character anywhere in the text,
not only at the start of a line.  If there is none, the fixed fallback
title is used and the body is unchanged.  Otherwise the text decomposes
around the first such occurrence as `pre ++ "Title: " ++ cap ++ rem`
with `cap` nonempty, newline-free and running to the end of that line
(`rem` is empty or starts with the newline), no occurrence starting
inside `pre`, and the result is the title `cap.trim()` with the body
`pre` followed by `rem` minus its leading newline — i.e. the matched
span `Title: cap` and its trailing newline are stripped; in particular
a body containing the line `Title: Fix null check` as the first
occurrence yields the title `Fix null check` and a published body
without that line. -/
theorem title_extraction_amended (s : String) :
    (hasTitleOcc s.data = false →
      extractTitleAndStrip s = (defaultPrTitle, s)) ∧
    (hasTitleOcc s.data = true →
      ∃ pre cap rem,
        s.data = pre ++ "Title: ".data ++ cap ++ rem ∧
        cap ≠ [] ∧
        (∀ c ∈ cap, c ≠ '\n') ∧
        (rem = [] ∨ ∃ rem2, rem = '\n' :: rem2) ∧
        (∀ p q, pre = p ++ q → q ≠ [] →
          titleMatchAt (q ++ "Title: ".data ++ cap ++ rem) = false) ∧
        extractTitleAndStrip s = (jsTrim (String.mk cap), String.mk (pre ++ rem.tail))) := by
  constructor
  · intro h
    have hn : splitTitle s.data = none := (splitTitle_eq_none_iff s.data).mpr h
    rw [extractTitleAndStrip, hn]
  · intro h
    cases hsp : splitTitle s.data with
    | none =>
      rw [splitTitle_eq_none_iff s.data] at hsp
      rw [hsp] at h
      exact absurd h (by simp)
    | some p3 =>
      obtain ⟨pre, cap, rem⟩ := p3
      obtain ⟨h1, h2, h3, h4, h5⟩ := splitTitle_sound s.data pre cap rem hsp
      exact ⟨pre, cap, rem, h1, h2, h3, h4, h5, by rw [extractTitleAndStrip, hsp]⟩

/-- Witness for C7's amended claim, at the spec's own example text
`Looks good.\nTitle: Minor cleanup`. -/
theorem title_extraction_amended_check :
    hasTitleOcc "Looks good.\nTitle: Minor cleanup".data = true ∧
    ∃ pre cap rem,
      "Looks good.\nTitle: Minor cleanup".data = pre ++ "Title: ".data ++ cap ++ rem ∧
      cap ≠ [] ∧
      (∀ c ∈ cap, c ≠ '\n') ∧
      (rem = [] ∨ ∃ rem2, rem = '\n' :: rem2) ∧
      (∀ p q, pre = p ++ q → q ≠ [] →
        titleMatchAt (q ++ "Title: ".data ++ cap ++ rem) = false) ∧
      extractTitleAndStrip "Looks good.\nTitle: Minor cleanup" =
        (jsTrim (String.mk cap), String.mk (pre ++ rem.tail)) :=
  ⟨by decide, (title_extraction_amended "Looks good.\nTitle: Minor cleanup").2 (by decide)⟩

/-! ## Advisory note (C8) -/

/-- C8: a post-processed review body that fails the minimum-richness
check (its line count is below the line threshold or its length below
the length threshold — thresholds 10/500 in src/app.js, 3/100 in
src/unnamed/part_000) is published with the fixed advisory note
appended exactly once, so the published body ends with the note; a body
that passes the check is published unchanged, with no note appended. -/
theorem short_review_note (lineThresh lenThresh : Nat) (s : String) :
    (isShortReview lineThresh lenThresh s = true →
      appendNoteIfShort lineThresh lenThresh s = s ++ reviewNote ∧
      reviewNote.data <:+ (appendNoteIfShort lineThresh lenThresh s).data) ∧
    (isShortReview lineThresh lenThresh s = false →
      appendNoteIfShort lineThresh lenThresh s = s) := by
  constructor
  · intro h
    have he : appendNoteIfShort lineThresh lenThresh s = s ++ reviewNote := by
      simp [appendNoteIfShort, h]
    refine ⟨he, ?_⟩
    rw [he]
    obtain ⟨l⟩ := s
    exact List.suffix_append l reviewNote.data
  · intro h
    simp [appendNoteIfShort, h]

/-- Witness for C8: the short body `hi` gets the note appended once;
the body `abcd\nef\nghi` passes thresholds (3, 8) and is unchanged. -/
theorem short_review_note_check :
    appendNoteIfShort 10 500 "hi" = "hi" ++ reviewNote ∧
    appendNoteIfShort 3 8 "abcd\nef\nghi" = "abcd\nef\nghi" :=
  ⟨((short_review_note 10 500 "hi").1 (by decide)).1,
   (short_review_note 3 8 "abcd\nef\nghi").2 (by decide)⟩

/-! ## processDiff (C9) -/

/-- C9 counterexample: on a diff whose section contains an
`index 1234` metadata line, `processDiff` deletes that line (the code's
`replace(/index .+\n/, '')` step), while the claim's description —
split into per-file sections, prefix with the file name, and rewrite
every line by the `+`/`-`/two-space rule (`processDiffClaimSpec`) —
keeps it as a two-space-indented context line, so the two outputs
differ. -/
theorem processDiff_claim_false :
    processDiff c9diff ≠ processDiffClaimSpec c9diff ∧
    processDiff c9diff = "\nFile: f\n   a/f b/f\n+ x\n" ∧
    processDiffClaimSpec c9diff = "\nFile: f\n   a/f b/f\n  index 1234\n+ x\n" :=
  ⟨by decide, by decide, by decide⟩

/-- C9 as amended: `processDiff` is a pure text transform (a total Lean
function) that splits the diff into per-file sections on `diff --git`,
renders a whitespace-only section as the empty string, and otherwise
prefixes the section with `File: ` and the extracted file name and
rewrites every line of the section — after first deleting the
section's first `index ...` line-pattern occurrence and its first
`new file mode ...` occurrence (`cleanSection`) — so that a line
starting with `+` becomes `+ ` followed by the rest, a line starting
with `-` becomes `- ` followed by the rest, and every other line is
indented with exactly two leading spaces. -/
theorem processDiff_amended (diff : String) (sec l rest : List Char) :
    processDiff diff = String.mk (joinNl ((splitDiffGit diff.data).map processSection)) ∧
    (trimChars sec = [] → processSection sec = []) ∧
    (trimChars sec ≠ [] → processSection sec =
      "File: ".data ++ fileNameOf sec ++ '\n' :: renderSectionLines (cleanSection sec) ++ ['\n']) ∧
    renderSectionLines (cleanSection sec) =
      joinNl ((splitOnNl (cleanSection sec)).map formatLineChars) ∧
    (l = '+' :: rest → formatLineChars l = '+' :: ' ' :: rest) ∧
    (l = '-' :: rest → formatLineChars l = '-' :: ' ' :: rest) ∧
    (l.head? ≠ some '+' → l.head? ≠ some '-' → formatLineChars l = ' ' :: ' ' :: l) := by
  refine ⟨rfl, ?_, ?_, rfl, ?_, ?_, ?_⟩
  · intro h
    rw [processSection, if_pos h]
  · intro h
    rw [processSection, if_neg h]
  · rintro rfl
    rfl
  · rintro rfl
    rfl
  · intro h1 h2
    cases l with
    | nil => rfl
    | cons c cs =>
      have hc1 : ¬ c = '+' := by simpa using h1
      have hc2 : ¬ c = '-' := by simpa using h2
      simp only [formatLineChars]
      rw [if_neg hc1, if_neg hc2]

/-- Witness for C9's amended claim on concrete inputs: a non-blank
section is rendered with the `File: ` prefix, and the three line forms
are rewritten as described. -/
theorem processDiff_amended_check :
    processSection "+x".data =
      "File: ".data ++ fileNameOf "+x".data ++ '\n' ::
        renderSectionLines (cleanSection "+x".data) ++ ['\n'] ∧
    formatLineChars ('+' :: "ab".data) = '+' :: ' ' :: "ab".data ∧
    formatLineChars ('-' :: "ab".data) = '-' :: ' ' :: "ab".data ∧
    formatLineChars "zz".data = ' ' :: ' ' :: "zz".data :=
  ⟨(processDiff_amended "" "+x".data [] []).2.2.1 (by decide),
   (processDiff_amended "" [] ('+' :: "ab".data) "ab".data).2.2.2.2.1 rfl,
   (processDiff_amended "" [] ('-' :: "ab".data) "ab".data).2.2.2.2.2.1 rfl,
   (processDiff_amended "" [] "zz".data "zz".data).2.2.2.2.2.2 (by decide) (by decide)⟩
